import Mathlib

/-!
A verification development for the `sqlutil` lease package (`lease.go`).

The core is a SQL-backed distributed lease: a `Lessor` configuration maps
lease operations onto a table with `name` / `exp` / `key` columns, and a
`Lease` handle proves ownership of one row via a random capability key.

We embed the store as a list of rows and each SQL statement issued by the
Go code by its effect on that list, faithful to the statement templates in
`lease.go`:

* `Acquire`:  `DELETE FROM t WHERE exp < $1` (the global stale sweep, with
  `time.Now()` as argument), then 16 random bytes hex-encoded to a key,
  then `INSERT INTO t (name, exp, key) VALUES ($1, $2, $3)`.
* `Renew`:    `UPDATE t SET exp = $1 WHERE name = $2 AND key = $3 AND exp > $4`,
  then the rows-affected check: zero rows is `errors.New("could not renew")`.
* `Release`:  `DELETE FROM t WHERE name = $1 AND key = $2`, rows-affected ignored.
* `Context`:  `context.WithDeadline(ctx, l.Exp)` with Go's documented
  semantics (the deadline is adjusted to be no later than the parent's).

Timestamps are integers.  Failures of the external collaborators (the
database execution capability, the randomness source, `RowsAffected`) are
modelled by explicit fault flags: the Go error value returned by the
collaborator is environment nondeterminism, so each call site takes a flag
saying whether that call failed.  `errors.Wrap` of a nil error is nil,
which `Option.map` captures exactly.
-/

/-- One persisted row of the lease table: `name`, `exp`, `key` columns. -/
structure Row where
  name : String
  exp  : Int
  key  : String
deriving Repr, DecidableEq

/-- The lease table: a bag of rows.  The uniqueness constraint on `name` is
provisioned externally, so the model does not force it; the insert takes a
flag saying whether the store enforces it. -/
abbrev Store := List Row

/-- Errors, mirroring the `github.com/pkg/errors` values built in `lease.go`. -/
inductive Err where
  /-- A store-level execution failure surfaced by `ExecContext`. -/
  | execFail (stmt : String)
  /-- The store-level uniqueness-constraint violation on an insert. -/
  | uniqueViolation
  /-- A failure of the randomness source `rand.Reader.Read`. -/
  | randFail
  /-- A failure of `sql.Result.RowsAffected`. -/
  | rowsFail
  /-- `errors.New(msg)`. -/
  | new (msg : String)
  /-- `errors.Wrap(e, msg)` with a non-nil `e`. -/
  | wrap (msg : String) (e : Err)
deriving Repr, DecidableEq

/-- The Lessor configuration: table and column names.  The database handle
`db` of the Go struct is the execution capability and is modelled by the
operational semantics below, not stored. -/
structure Lessor where
  Table : String
  Name  : String
  Exp   : String
  Key   : String
deriving Repr, DecidableEq

def defaultTable : String := "leases"
def defaultName : String := "name"
def defaultExp : String := "exp"
def defaultKey : String := "key"

def Lessor.tableName (l : Lessor) : String :=
  if l.Table = "" then defaultTable else l.Table

def Lessor.nameName (l : Lessor) : String :=
  if l.Name = "" then defaultName else l.Name

def Lessor.expName (l : Lessor) : String :=
  if l.Exp = "" then defaultExp else l.Exp

def Lessor.keyName (l : Lessor) : String :=
  if l.Key = "" then defaultKey else l.Key

/-- The lease handle: `{Lessor, Name, Exp, Key}` as in `lease.go`. -/
structure Lease where
  lessor : Lessor
  Name   : String
  Exp    : Int
  Key    : String
deriving Repr, DecidableEq

/-- Effect of `DELETE FROM t WHERE exp < $1` with `$1 = now`: every row whose
expiration is strictly before `now` is removed, regardless of its name. -/
def deleteStale (now : Int) (s : Store) : Store :=
  s.filter fun r => !decide (r.exp < now)

/-- Go's `hex` digits, `const hextable = "0123456789abcdef"`. -/
def hextable : List Char := "0123456789abcdef".data

/-- `hextable[v>>4]` / `hextable[v&0x0f]` for a byte `v` (reduced mod 256). -/
def hexDigit (n : Nat) : Char := hextable.getD n '0'

/-- Go's `hex.EncodeToString`: each byte becomes its high nibble's digit
followed by its low nibble's digit. -/
def hexEncodeToString (bs : List Nat) : String :=
  String.mk (bs.map (fun b => [hexDigit (b % 256 / 16), hexDigit (b % 16)])).flatten

/-- Effect of `INSERT INTO t (name, exp, key) VALUES ($1, $2, $3)`.
`fault` injects a store-level execution failure; `uniq` says whether the
store enforces the uniqueness constraint on the name column, in which case
the insert fails iff a row with this name already exists (expired or not). -/
def execInsert (fault uniq : Bool) (name : String) (exp : Int) (key : String)
    (s : Store) : Store × Option Err :=
  if fault then (s, some (Err.execFail "insert"))
  else if uniq && s.any (fun r => r.name == name) then (s, some Err.uniqueViolation)
  else (s ++ [⟨name, exp, key⟩], none)

/-- Fault flags for the three fallible steps of `Acquire`: the stale-sweep
`ExecContext`, the `rand.Reader.Read`, and the insert's `ExecContext`
(a failure other than the uniqueness violation, which `execInsert` decides). -/
structure AcqFaults where
  sweep : Bool
  rand  : Bool
  ins   : Bool
deriving Repr, DecidableEq

/-- `Lessor.Acquire` from `lease.go`: sweep stale rows, draw a random key,
hex-encode it, insert the row.  The bytes read from `rand.Reader` are the
`randBytes` parameter (the Go code reads a 16-byte array).  Returns the
store after the call, the returned `*Lease` (`none` is Go's nil) and the
returned error (`none` is Go's nil). -/
def Lessor.Acquire (l : Lessor) (fl : AcqFaults) (uniq : Bool) (now : Int)
    (randBytes : List Nat) (name : String) (exp : Int) (s : Store) :
    Store × Option Lease × Option Err :=
  if fl.sweep then
    (s, none, some (Err.wrap "deleting stale leases" (Err.execFail "delete")))
  else
    let s1 := deleteStale now s
    if fl.rand then
      (s1, none, some (Err.wrap "computing key" Err.randFail))
    else
      let keyHex := hexEncodeToString randBytes
      let ins := execInsert fl.ins uniq name exp keyHex s1
      (ins.1,
       some { lessor := l, Name := name, Exp := exp, Key := keyHex },
       ins.2.map (Err.wrap "inserting into database"))

/-- The `WHERE` clause of Renew's update:
`name = $2 AND key = $3 AND exp > $4` with the handle's name and key. -/
def renewHit (name key : String) (now : Int) (r : Row) : Bool :=
  r.name == name && r.key == key && decide (r.exp > now)

/-- The rows-affected check at the end of `Lease.Renew`: zero affected rows
yields `errors.New("could not renew")`, anything else is success. -/
def renewAfterExec (aff : Nat) : Option Err :=
  if aff == 0 then some (Err.new "could not renew") else none

/-- `Lease.Renew` from `lease.go`: the conditional update
`UPDATE t SET exp = $1 WHERE name = $2 AND key = $3 AND exp > $4` followed
by the rows-affected check.  `execFault` / `rowsFault` inject failures of
`ExecContext` and of `RowsAffected`. -/
def Lease.Renew (l : Lease) (execFault rowsFault : Bool) (now exp : Int)
    (s : Store) : Store × Option Err :=
  if execFault then (s, some (Err.wrap "updating database" (Err.execFail "update")))
  else
    let aff := s.countP (renewHit l.Name l.Key now)
    let s1 := s.map fun r => if renewHit l.Name l.Key now r then { r with exp := exp } else r
    if rowsFault then (s1, some (Err.wrap "counting affected rows" Err.rowsFail))
    else (s1, renewAfterExec aff)

/-- `Lease.Release` from `lease.go`: the unconditional delete
`DELETE FROM t WHERE name = $1 AND key = $2`; rows-affected is never
inspected, so a fault-free call always returns a nil error. -/
def Lease.Release (l : Lease) (execFault : Bool) (s : Store) :
    Store × Option Err :=
  if execFault then (s, some (Err.wrap "deleting from database" (Err.execFail "delete")))
  else (s.filter (fun r => !(r.name == l.Name && r.key == l.Key)), none)

/-- A Go `context.Context` as far as the lease core observes it: an optional
deadline and whether the context is cancellable. -/
structure Ctx where
  deadline    : Option Int
  cancellable : Bool
deriving Repr, DecidableEq

/-- Go's `context.WithDeadline(parent, d)` (standard library, documented
semantics): the child is cancellable and its deadline is adjusted to be no
later than `d` — if the parent's deadline is already earlier than `d`, the
child keeps the parent's deadline. -/
def withDeadline (parent : Ctx) (d : Int) : Ctx :=
  match parent.deadline with
  | some pd => if pd < d then { deadline := some pd, cancellable := true }
               else { deadline := some d, cancellable := true }
  | none => { deadline := some d, cancellable := true }

/-- `Lease.Context` from `lease.go`: `context.WithDeadline(ctx, l.Exp)`.
The second component models the returned cancel function (always present). -/
def Lease.Context (l : Lease) (parent : Ctx) : Ctx × Bool :=
  (withDeadline parent l.Exp, true)

/-! ### Full-state forms

The Go methods receive the Lessor through a pointer, so in principle they
could write its configuration fields.  The full-state forms make the Lessor
part of the state threaded through each operation, so that the frame
property "no operation modifies the Lessor configuration" is statable. -/

/-- `Acquire` with the Lessor threaded as state. -/
def AcquireFull (fl : AcqFaults) (uniq : Bool) (now : Int) (randBytes : List Nat)
    (name : String) (exp : Int) (st : Lessor × Store) :
    (Lessor × Store) × Option Lease × Option Err :=
  let r := st.1.Acquire fl uniq now randBytes name exp st.2
  ((st.1, r.1), r.2.1, r.2.2)

/-- `Renew` with the Lessor threaded as state. -/
def RenewFull (l : Lease) (execFault rowsFault : Bool) (now exp : Int)
    (st : Lessor × Store) : (Lessor × Store) × Option Err :=
  let r := Lease.Renew { l with lessor := st.1 } execFault rowsFault now exp st.2
  ((st.1, r.1), r.2)

/-- `Release` with the Lessor threaded as state. -/
def ReleaseFull (l : Lease) (execFault : Bool) (st : Lessor × Store) :
    (Lessor × Store) × Option Err :=
  let r := Lease.Release { l with lessor := st.1 } execFault st.2
  ((st.1, r.1), r.2)

/-- `Context` with the Lessor and store threaded as state: the Go method
body issues no database statement, so the state passes through untouched. -/
def ContextFull (l : Lease) (parent : Ctx) (st : Lessor × Store) :
    (Ctx × Bool) × (Lessor × Store) :=
  (l.Context parent, st)

/-! ### Helper lemmas -/

/-- A conditional row update touching no row leaves the store unchanged. -/
theorem countP_zero_map_id (p : Row → Bool) (f : Row → Row) (s : Store)
    (h : s.countP p = 0) : (s.map fun r => if p r then f r else r) = s := by
  induction s with
  | nil => rfl
  | cons a t ih =>
    rw [List.countP_cons] at h
    cases hpa : p a with
    | false =>
      rw [hpa] at h
      simp only [if_neg Bool.false_ne_true, Nat.add_zero] at h
      simp [hpa, ih h]
    | true =>
      rw [hpa] at h
      simp at h

/-- Characterisation of a fault-free `Renew`: the pair it returns. -/
theorem renew_eq (l : Lease) (now exp : Int) (s : Store) :
    l.Renew false false now exp s =
      (s.map fun r => if renewHit l.Name l.Key now r then { r with exp := exp } else r,
       renewAfterExec (s.countP (renewHit l.Name l.Key now))) := by
  simp [Lease.Renew]

/-- The update's `WHERE` clause as a proposition. -/
theorem renewHit_iff (name key : String) (now : Int) (r : Row) :
    renewHit name key now r = true ↔
      (r.name = name ∧ r.key = key ∧ now < r.exp) := by
  simp [renewHit, and_assoc]

/-! ### C1 -/

/-- C1 counterexample: when the stale-sweep statement fails, `Acquire`
returns a nil (`none`) Lease together with a non-nil error, refuting the
claim that an error never comes with a nil Lease. -/
theorem C1_counterexample :
    (Lessor.Acquire ⟨"", "", "", ""⟩ ⟨true, false, false⟩ true 0 [] "n" 1 []).2.2.isSome = true ∧
    (Lessor.Acquire ⟨"", "", "", ""⟩ ⟨true, false, false⟩ true 0 [] "n" 1 []).2.1 = none :=
  ⟨rfl, rfl⟩

/-- C1 amended: a populated Lease handle accompanies the result (also when
the insert step failed) exactly when the sweep and the key generation both
succeeded; a sweep or randomness failure returns a nil Lease with a
non-nil error. -/
theorem C1_amended (l : Lessor) (fl : AcqFaults) (uniq : Bool) (now : Int)
    (randBytes : List Nat) (name : String) (exp : Int) (s : Store) :
    (fl.sweep = false → fl.rand = false →
      (l.Acquire fl uniq now randBytes name exp s).2.1 =
        some { lessor := l, Name := name, Exp := exp,
               Key := hexEncodeToString randBytes }) ∧
    (fl.sweep = true ∨ (fl.sweep = false ∧ fl.rand = true) →
      (l.Acquire fl uniq now randBytes name exp s).2.1 = none ∧
      (l.Acquire fl uniq now randBytes name exp s).2.2.isSome = true) := by
  constructor
  · intro hs hr
    simp [Lessor.Acquire, hs, hr]
  · rintro (hs | ⟨hs, hr⟩)
    · simp [Lessor.Acquire, hs]
    · simp [Lessor.Acquire, hs, hr]

/-- C1 amended, witnessed at a concrete input: the insert fails, yet the
populated Lease handle is returned. -/
theorem C1_amended_witness :
    (Lessor.Acquire ⟨"", "", "", ""⟩ ⟨false, false, true⟩ true 0 [7] "n" 5 []).2.1 =
      some { lessor := ⟨"", "", "", ""⟩, Name := "n", Exp := 5,
             Key := hexEncodeToString [7] } :=
  (C1_amended ⟨"", "", "", ""⟩ ⟨false, false, true⟩ true 0 [7] "n" 5 []).1 rfl rfl

/-! ### C2 -/

/-- C2: a fault-free `Renew` returns a nil error iff the store holds a row
with the handle's Name and Key whose expiration is strictly later than the
current time; otherwise it returns the renew-refused error and the store is
unchanged. -/
theorem C2_renew_iff (l : Lease) (now exp : Int) (s : Store) :
    ((l.Renew false false now exp s).2 = none ↔
      ∃ r ∈ s, r.name = l.Name ∧ r.key = l.Key ∧ now < r.exp) ∧
    ((l.Renew false false now exp s).2 ≠ none →
      (l.Renew false false now exp s).2 = some (Err.new "could not renew") ∧
      (l.Renew false false now exp s).1 = s) := by
  rw [renew_eq]
  by_cases h0 : s.countP (renewHit l.Name l.Key now) = 0
  · have hall := List.countP_eq_zero.1 h0
    constructor
    · simp only [renewAfterExec, h0]
      simp only [Nat.zero_eq, beq_self_eq_true, if_true, reduceCtorEq, false_iff]
      rintro ⟨r, hr, hn, hk, he⟩
      exact hall r hr ((renewHit_iff _ _ _ _).2 ⟨hn, hk, he⟩)
    · intro _
      refine ⟨by simp [renewAfterExec, h0], countP_zero_map_id _ _ _ h0⟩
  · have hpos : 0 < s.countP (renewHit l.Name l.Key now) := Nat.pos_of_ne_zero h0
    obtain ⟨r, hr, hhit⟩ := List.countP_pos_iff.1 hpos
    constructor
    · simp only [renewAfterExec, beq_iff_eq, if_neg h0, true_iff]
      exact ⟨r, hr, (renewHit_iff _ _ _ _).1 hhit⟩
    · intro hne
      exact absurd (by simp [renewAfterExec, h0]) hne

/-- C2 witnessed at a concrete input: no matching unexpired row, so Renew
refuses and the store is unchanged. -/
theorem C2_witness :
    (Lease.Renew ⟨⟨"", "", "", ""⟩, "n", 10, "k"⟩ false false 0 20
        [⟨"m", 10, "k"⟩]).2 = some (Err.new "could not renew") ∧
    (Lease.Renew ⟨⟨"", "", "", ""⟩, "n", 10, "k"⟩ false false 0 20
        [⟨"m", 10, "k"⟩]).1 = [⟨"m", 10, "k"⟩] :=
  (C2_renew_iff ⟨⟨"", "", "", ""⟩, "n", 10, "k"⟩ 0 20 [⟨"m", 10, "k"⟩]).2
    (by decide)

/-! ### C3 -/

/-- C3 counterexample: with two identical matching rows the conditional
update affects two rows, yet `Renew` returns a nil error — refuting
"nil error only when exactly one row was affected". -/
theorem C3_counterexample :
    (Lease.Renew ⟨⟨"", "", "", ""⟩, "n", 10, "k"⟩ false false 0 20
        [⟨"n", 10, "k"⟩, ⟨"n", 10, "k"⟩]).2 = none ∧
    ([⟨"n", 10, "k"⟩, ⟨"n", 10, "k"⟩] : Store).countP (renewHit "n" "k" 0) = 2 := by
  constructor
  · rfl
  · rfl

/-- C3 amended: `Renew` returns a nil error exactly when the update affected
at least one row (any non-zero count, including counts greater than one),
and the renew-refused error exactly when it affected zero rows. -/
theorem C3_amended (l : Lease) (now exp : Int) (s : Store) :
    ((l.Renew false false now exp s).2 = none ↔
      0 < s.countP (renewHit l.Name l.Key now)) ∧
    ((l.Renew false false now exp s).2 = some (Err.new "could not renew") ↔
      s.countP (renewHit l.Name l.Key now) = 0) ∧
    (∀ aff : Nat, renewAfterExec aff = none ↔ aff ≠ 0) ∧
    (∀ aff : Nat, renewAfterExec aff = some (Err.new "could not renew") ↔ aff = 0) := by
  refine ⟨?_, ?_, ?_, ?_⟩
  · rw [renew_eq]
    by_cases h0 : s.countP (renewHit l.Name l.Key now) = 0
    · simp [renewAfterExec, h0]
    · simp [renewAfterExec, h0, Nat.pos_of_ne_zero h0]
  · rw [renew_eq]
    by_cases h0 : s.countP (renewHit l.Name l.Key now) = 0
    · simp [renewAfterExec, h0]
    · simp [renewAfterExec, h0]
  · intro aff
    by_cases h0 : aff = 0 <;> simp [renewAfterExec, h0]
  · intro aff
    by_cases h0 : aff = 0 <;> simp [renewAfterExec, h0]

/-! ### C7 -/

/-- C7: `Release` is idempotent: a fault-free call returns a nil error
whether it removed one row or zero, a second call on the same handle also
returns a nil error and changes nothing, and afterwards no row matching the
handle's Name and Key remains. -/
theorem C7_release_idempotent (l : Lease) (s : Store) :
    (l.Release false s).2 = none ∧
    (l.Release false ((l.Release false s).1)).2 = none ∧
    (l.Release false ((l.Release false s).1)).1 = (l.Release false s).1 ∧
    ∀ r ∈ (l.Release false s).1, ¬(r.name = l.Name ∧ r.key = l.Key) := by
  refine ⟨rfl, rfl, ?_, ?_⟩
  · simp [Lease.Release, List.filter_filter]
  · intro r hr
    have h : (l.Release false s).1 =
        s.filter (fun r => !(r.name == l.Name && r.key == l.Key)) := rfl
    rw [h, List.mem_filter] at hr
    rintro ⟨hn, hk⟩
    simp [hn, hk] at hr

/-! ### C8 -/

/-- C8 counterexample: with a parent context whose deadline (5) is earlier
than the lease's `Exp` (10), the derived child's deadline is the parent's 5,
not `Exp` — refuting "deadline equals the lease's Exp field". -/
theorem C8_counterexample :
    ((Lease.Context ⟨⟨"", "", "", ""⟩, "n", 10, "k"⟩ ⟨some 5, false⟩).1).deadline ≠
      some 10 := by
  simp [Lease.Context, withDeadline]

/-- C8 amended: `Context` derives a cancellable child of the parent without
any store round trip, and the child's deadline is the earlier of the
parent's deadline and the lease's `Exp` — it equals `Exp` exactly when the
parent carries no earlier deadline. -/
theorem C8_amended (l : Lease) (parent : Ctx) (st : Lessor × Store) :
    (l.Context parent).1.cancellable = true ∧
    (l.Context parent).1.deadline =
      some (match parent.deadline with
            | some pd => min pd l.Exp
            | none => l.Exp) ∧
    (ContextFull l parent st).2 = st ∧
    (ContextFull l parent st).1 = l.Context parent := by
  refine ⟨?_, ?_, rfl, rfl⟩
  · cases hd : parent.deadline with
    | none => simp [Lease.Context, withDeadline, hd]
    | some pd =>
      simp only [Lease.Context, withDeadline, hd]
      split <;> rfl
  · cases hd : parent.deadline with
    | none => simp [Lease.Context, withDeadline, hd]
    | some pd =>
      simp only [Lease.Context, withDeadline, hd]
      rcases lt_or_ge pd l.Exp with hlt | hge
      · rw [if_pos hlt]
        simp [min_eq_left (le_of_lt hlt)]
      · rw [if_neg (not_lt.2 hge)]
        simp [min_eq_right hge]

/-! ### C9 -/

/-- C9: no core operation writes the Lessor configuration — the Lessor
component of the threaded state is preserved by Acquire, Renew, Release and
Context — and the accessors resolve defaults at use time, purely. -/
theorem C9_lessor_readonly (l : Lessor) (fl : AcqFaults) (uniq : Bool)
    (now exp : Int) (randBytes : List Nat) (name : String) (le : Lease)
    (ef rf : Bool) (parent : Ctx) (st : Lessor × Store) :
    (AcquireFull fl uniq now randBytes name exp st).1.1 = st.1 ∧
    (RenewFull le ef rf now exp st).1.1 = st.1 ∧
    (ReleaseFull le ef st).1.1 = st.1 ∧
    (ContextFull le parent st).2.1 = st.1 ∧
    l.tableName = (if l.Table = "" then defaultTable else l.Table) ∧
    l.nameName = (if l.Name = "" then defaultName else l.Name) ∧
    l.expName = (if l.Exp = "" then defaultExp else l.Exp) ∧
    l.keyName = (if l.Key = "" then defaultKey else l.Key) :=
  ⟨rfl, rfl, rfl, rfl, rfl, rfl, rfl, rfl⟩

/-! ### C10 -/

/-- C10: a stored row whose expiration exactly equals the current time is in
neither operation's reach: the stale sweep keeps it (it requires `exp < now`)
and `Renew` on its handle refuses (it requires `exp > now`), leaving the row
unchanged. -/
theorem C10_boundary (r : Row) (now newExp : Int) (l : Lease)
    (hexp : r.exp = now) (hn : r.name = l.Name) (hk : r.key = l.Key) :
    (∀ s : Store, r ∈ s → r ∈ deleteStale now s) ∧
    l.Renew false false now newExp [r] = ([r], some (Err.new "could not renew")) := by
  constructor
  · intro s hs
    simp only [deleteStale, List.mem_filter]
    exact ⟨hs, by simp [hexp]⟩
  · have hmiss : renewHit l.Name l.Key now r = false := by
      simp [renewHit, hexp]
    rw [renew_eq]
    simp [List.countP_cons, hmiss, renewAfterExec]

/-- C10 witnessed at a concrete input: the row `("n", 0, "k")` at time 0
survives the sweep and its Renew refuses. -/
theorem C10_witness :
    ((⟨"n", 0, "k"⟩ : Row) ∈ deleteStale 0 [⟨"n", 0, "k"⟩]) ∧
    Lease.Renew ⟨⟨"", "", "", ""⟩, "n", 7, "k"⟩ false false 0 5 [⟨"n", 0, "k"⟩] =
      ([⟨"n", 0, "k"⟩], some (Err.new "could not renew")) :=
  ⟨(C10_boundary ⟨"n", 0, "k"⟩ 0 5 ⟨⟨"", "", "", ""⟩, "n", 7, "k"⟩ rfl rfl rfl).1
      [⟨"n", 0, "k"⟩] (by simp),
   (C10_boundary ⟨"n", 0, "k"⟩ 0 5 ⟨⟨"", "", "", ""⟩, "n", 7, "k"⟩ rfl rfl rfl).2⟩

/-! ### C4 -/

/-- C4: every `Acquire` first runs the global stale sweep — `deleteStale`
removes every row with `exp < now`, for every name; a sweep failure aborts
the whole call with an error, a nil Lease, and an untouched store (no
insert attempted); and once the sweep ran, the resulting store extends the
swept store — on any later failure it is exactly the swept store, on
success the swept store plus the new row — so the sweep's deletions persist
even when the insert fails. -/
theorem C4_global_sweep (l : Lessor) (fl : AcqFaults) (uniq : Bool)
    (now : Int) (randBytes : List Nat) (name : String) (exp : Int) (s : Store) :
    (∀ r ∈ s, r.exp < now → r ∉ deleteStale now s) ∧
    (fl.sweep = true →
      l.Acquire fl uniq now randBytes name exp s =
        (s, none, some (Err.wrap "deleting stale leases" (Err.execFail "delete")))) ∧
    (fl.sweep = false →
      ((l.Acquire fl uniq now randBytes name exp s).2.2 ≠ none →
        (l.Acquire fl uniq now randBytes name exp s).1 = deleteStale now s) ∧
      ((l.Acquire fl uniq now randBytes name exp s).2.2 = none →
        (l.Acquire fl uniq now randBytes name exp s).1 =
          deleteStale now s ++ [⟨name, exp, hexEncodeToString randBytes⟩])) := by
  refine ⟨?_, ?_, ?_⟩
  · intro r _ hlt hmem
    rw [deleteStale, List.mem_filter] at hmem
    simp [hlt] at hmem
  · intro hs
    simp [Lessor.Acquire, hs]
  · intro hs
    cases hr : fl.rand with
    | true =>
      constructor
      · intro _
        simp [Lessor.Acquire, hs, hr]
      · intro hcontra
        simp [Lessor.Acquire, hs, hr] at hcontra
    | false =>
      have hacq : l.Acquire fl uniq now randBytes name exp s =
          ((execInsert fl.ins uniq name exp (hexEncodeToString randBytes)
              (deleteStale now s)).1,
           some { lessor := l, Name := name, Exp := exp,
                  Key := hexEncodeToString randBytes },
           (execInsert fl.ins uniq name exp (hexEncodeToString randBytes)
              (deleteStale now s)).2.map (Err.wrap "inserting into database")) := by
        simp [Lessor.Acquire, hs, hr]
      rw [hacq]
      cases hi : fl.ins with
      | true =>
        simp [execInsert, hi]
      | false =>
        cases hu : (uniq && (deleteStale now s).any (fun r => r.name == name)) with
        | true => simp [execInsert, hi, hu]
        | false => simp [execInsert, hi, hu]

/-- C4 witnessed at a concrete input: the insert fails, yet the stale row
(with a different name) has been swept and stays deleted. -/
theorem C4_witness :
    (Lessor.Acquire ⟨"", "", "", ""⟩ ⟨false, false, true⟩ true 0 [1, 2] "n" 9
        [⟨"old", -5, "x"⟩]).1 = deleteStale 0 [⟨"old", -5, "x"⟩] :=
  ((C4_global_sweep ⟨"", "", "", ""⟩ ⟨false, false, true⟩ true 0 [1, 2] "n" 9
      [⟨"old", -5, "x"⟩]).2.2 rfl).1 (by decide)

/-! ### C6 helper lemmas -/

/-- Each hex digit of an in-range index is one of the sixteen characters. -/
theorem hexDigit_mem_of_lt : ∀ n < 16, hexDigit n ∈ hextable := by decide

/-- Flattening two-character chunks yields two characters per input. -/
theorem flatten_two_length (f g : Nat → Char) (bs : List Nat) :
    ((bs.map fun b => [f b, g b]).flatten).length = 2 * bs.length := by
  induction bs with
  | nil => rfl
  | cons b t ih =>
    simp only [List.map_cons, List.flatten_cons, List.length_append, ih,
      List.length_cons, List.length_nil]
    omega

/-- `hex.EncodeToString` yields two characters per input byte. -/
theorem hexEncodeToString_length (bs : List Nat) :
    (hexEncodeToString bs).length = 2 * bs.length :=
  flatten_two_length _ _ bs

/-- Every character of a hex-encoded string is a hex digit. -/
theorem hexEncodeToString_mem (bs : List Nat) :
    ∀ c ∈ (hexEncodeToString bs).data, c ∈ hextable := by
  intro c hc
  have hc' : c ∈ (bs.map fun b => [hexDigit (b % 256 / 16), hexDigit (b % 16)]).flatten := hc
  rw [List.mem_flatten] at hc'
  obtain ⟨pair, hpair, hcp⟩ := hc'
  rw [List.mem_map] at hpair
  obtain ⟨b, -, rfl⟩ := hpair
  simp only [List.mem_cons, List.not_mem_nil, or_false] at hcp
  rcases hcp with rfl | rfl
  · exact hexDigit_mem_of_lt _ (by omega)
  · exact hexDigit_mem_of_lt _ (by omega)

/-- A store whose rows named `name` are all expired has, after the sweep,
no row named `name` at all. -/
theorem swept_no_name (now : Int) (name : String) (s : Store)
    (hfree : ∀ r ∈ s, r.name = name → r.exp < now) :
    (deleteStale now s).any (fun r => r.name == name) = false := by
  rw [List.any_eq_false]
  intro r hr
  rw [deleteStale, List.mem_filter] at hr
  rcases hr with ⟨hmem, hkeep⟩
  intro hname
  rw [beq_iff_eq] at hname
  have := hfree r hmem hname
  simp [this] at hkeep

/-! ### C6 -/

/-- C6: for a name with no unexpired row present, a fault-free `Acquire`
succeeds: nil error, the store gains the new row after the sweep, and the
returned handle carries the requested `Name` and `Exp` and a Key that is
the 32-character hex encoding of the 16 random bytes, every character a hex
digit.  If instead the randomness source fails, the operation aborts before
the insert: nil Lease, non-nil error, and the store holds exactly the swept
rows. -/
theorem C6_fresh_acquire (l : Lessor) (uniq : Bool) (now : Int)
    (randBytes : List Nat) (name : String) (exp : Int) (s : Store)
    (hfree : ∀ r ∈ s, r.name = name → r.exp < now)
    (hlen : randBytes.length = 16) :
    (l.Acquire ⟨false, false, false⟩ uniq now randBytes name exp s).2.2 = none ∧
    (l.Acquire ⟨false, false, false⟩ uniq now randBytes name exp s).2.1 =
      some { lessor := l, Name := name, Exp := exp,
             Key := hexEncodeToString randBytes } ∧
    (l.Acquire ⟨false, false, false⟩ uniq now randBytes name exp s).1 =
      deleteStale now s ++ [⟨name, exp, hexEncodeToString randBytes⟩] ∧
    (hexEncodeToString randBytes).length = 32 ∧
    (∀ c ∈ (hexEncodeToString randBytes).data, c ∈ hextable) ∧
    (l.Acquire ⟨false, true, false⟩ uniq now randBytes name exp s).2.1 = none ∧
    (l.Acquire ⟨false, true, false⟩ uniq now randBytes name exp s).2.2.isSome = true ∧
    (l.Acquire ⟨false, true, false⟩ uniq now randBytes name exp s).1 =
      deleteStale now s := by
  have hany := swept_no_name now name s hfree
  refine ⟨?_, ?_, ?_, ?_, hexEncodeToString_mem randBytes, ?_, ?_, ?_⟩
  · simp [Lessor.Acquire, execInsert, hany]
  · simp [Lessor.Acquire, execInsert, hany]
  · simp [Lessor.Acquire, execInsert, hany]
  · rw [hexEncodeToString_length, hlen]
  · simp [Lessor.Acquire]
  · simp [Lessor.Acquire]
  · simp [Lessor.Acquire]

/-- C6 witnessed at a concrete input: the only row named "n" is expired, so
the acquire succeeds and the key has 32 characters. -/
theorem C6_witness :
    (Lessor.Acquire ⟨"", "", "", ""⟩ ⟨false, false, false⟩ true 0
        [0, 1, 2, 3, 4, 5, 6, 7, 8, 9, 10, 11, 12, 13, 14, 255] "n" 9
        [⟨"n", -1, "x"⟩]).2.2 = none ∧
    (hexEncodeToString [0, 1, 2, 3, 4, 5, 6, 7, 8, 9, 10, 11, 12, 13, 14, 255]).length
      = 32 :=
  ⟨(C6_fresh_acquire ⟨"", "", "", ""⟩ true 0
      [0, 1, 2, 3, 4, 5, 6, 7, 8, 9, 10, 11, 12, 13, 14, 255] "n" 9
      [⟨"n", -1, "x"⟩] (by decide) (by decide)).1,
   (C6_fresh_acquire ⟨"", "", "", ""⟩ true 0
      [0, 1, 2, 3, 4, 5, 6, 7, 8, 9, 10, 11, 12, 13, 14, 255] "n" 9
      [⟨"n", -1, "x"⟩] (by decide) (by decide)).2.2.2.1⟩

/-! ### C5: two concurrent Acquires for the same name

Each `Acquire` issues two statements — its global sweep, then its insert —
and the store executes each statement atomically (the pair is *not* a
transaction).  A concurrent run of two Acquires for the same name `N` is an
interleaving of the two statement sequences that preserves each actor's
program order.  The store enforces the uniqueness constraint on the name
column (`execInsert` with `uniq = true`). -/

/-- One actor's half of a concurrent `Acquire(N, exp)`: the clock value its
sweep uses, the expiration it inserts, and its random key. -/
structure Actor where
  now : Int
  exp : Int
  key : String
deriving Repr, DecidableEq

/-- The two atomic statements of an `Acquire`, tagged by actor
(`false` = first actor, `true` = second actor). -/
inductive AcqEv where
  | sweepEv (b : Bool)
  | insEv (b : Bool)
deriving Repr, DecidableEq

def actorOf (pa pb : Actor) : Bool → Actor
  | false => pa
  | true => pb

/-- Interleaved execution state: the store plus each actor's insert outcome
(`none` until that insert has run, then `some true` iff it succeeded). -/
abbrev AcqState := Store × Option Bool × Option Bool

/-- One statement of the concurrent pair, executed atomically by the store
with the uniqueness constraint enforced. -/
def acqStep (N : String) (pa pb : Actor) (st : AcqState) : AcqEv → AcqState
  | .sweepEv b => (deleteStale (actorOf pa pb b).now st.1, st.2)
  | .insEv b =>
      let p := actorOf pa pb b
      let r := execInsert false true N p.exp p.key st.1
      if b then (r.1, st.2.1, some r.2.isNone) else (r.1, some r.2.isNone, st.2.2)

/-- Run a statement sequence from an initial store. -/
def acqRun (N : String) (pa pb : Actor) (evs : List AcqEv) (s : Store) : AcqState :=
  evs.foldl (acqStep N pa pb) (s, none, none)

/-- All interleavings of the two `[sweep, insert]` sequences that preserve
each actor's program order. -/
def interleavings : List (List AcqEv) :=
  [[.sweepEv false, .insEv false, .sweepEv true, .insEv true],
   [.sweepEv false, .sweepEv true, .insEv false, .insEv true],
   [.sweepEv false, .sweepEv true, .insEv true, .insEv false],
   [.sweepEv true, .sweepEv false, .insEv false, .insEv true],
   [.sweepEv true, .sweepEv false, .insEv true, .insEv false],
   [.sweepEv true, .insEv true, .sweepEv false, .insEv false]]

/-- The rows named `N` in a store. -/
def nrows (N : String) (s : Store) : Store := s.filter fun r => r.name == N

/-- Sweeping commutes into the name-filtered view of the store. -/
theorem nrows_deleteStale (N : String) (now : Int) (s : Store) :
    nrows N (deleteStale now s) =
      (nrows N s).filter fun r => !decide (r.exp < now) := by
  simp only [nrows, deleteStale, List.filter_filter]
  exact List.filter_congr fun r _ => Bool.and_comm _ _

/-- A sweep cannot create a row for `N`. -/
theorem nrows_sweep_empty (N : String) (now : Int) (t : Store)
    (h : nrows N t = []) : nrows N (deleteStale now t) = [] := by
  rw [nrows_deleteStale, h]
  rfl

/-- Inserting `N` into a store with no `N` row succeeds and appends it. -/
theorem nrows_nil_insert (N : String) (e : Int) (k : String) (s : Store)
    (h : nrows N s = []) :
    execInsert false true N e k s = (s ++ [⟨N, e, k⟩], none) := by
  have hany : s.any (fun r => r.name == N) = false := by
    rw [List.any_eq_false]
    intro r hr hname
    have hmem : r ∈ nrows N s := List.mem_filter.2 ⟨hr, hname⟩
    rw [h] at hmem
    exact absurd hmem (List.not_mem_nil r)
  simp [execInsert, hany]

/-- Inserting `N` while some `N` row exists hits the uniqueness constraint:
the store is unchanged and the constraint violation is returned. -/
theorem nrows_nonnil_insert (N : String) (e : Int) (k : String) (s : Store)
    (h : nrows N s ≠ []) :
    execInsert false true N e k s = (s, some Err.uniqueViolation) := by
  obtain ⟨r, hr⟩ := List.exists_mem_of_ne_nil _ h
  have hr' := List.mem_filter.1 hr
  have hany : s.any (fun r => r.name == N) = true :=
    List.any_eq_true.2 ⟨r, hr'.1, hr'.2⟩
  simp [execInsert, hany]

/-- Appending a row named `N` appends it to the name-filtered view. -/
theorem nrows_append_row (N : String) (s : Store) (row : Row)
    (hrow : row.name = N) : nrows N (s ++ [row]) = nrows N s ++ [row] := by
  simp [nrows, List.filter_append, hrow]

/-- With the uniqueness constraint enforced, every single statement keeps
the number of rows named `N` at most one. -/
theorem acqStep_nrows_le (N : String) (pa pb : Actor) (st : AcqState) (ev : AcqEv)
    (h : (nrows N st.1).length ≤ 1) :
    (nrows N (acqStep N pa pb st ev).1).length ≤ 1 := by
  cases ev with
  | sweepEv b =>
    simp only [acqStep]
    rw [nrows_deleteStale]
    exact le_trans (List.length_filter_le _ _) h
  | insEv b =>
    rcases hn : nrows N st.1 with - | ⟨r, t⟩
    · have hins := nrows_nil_insert N (actorOf pa pb b).exp (actorOf pa pb b).key st.1 hn
      have happ := nrows_append_row N st.1 (⟨N, (actorOf pa pb b).exp, (actorOf pa pb b).key⟩ : Row) rfl
      cases b <;> simp [acqStep, hins, happ, hn]
    · have hins := nrows_nonnil_insert N (actorOf pa pb b).exp (actorOf pa pb b).key st.1
        (by rw [hn]; exact List.cons_ne_nil r t)
      cases b <;> simp [acqStep, hins] <;> rw [hn] at h ⊢ <;> exact h

/-- The at-most-one-row invariant holds after every prefix of every run. -/
theorem foldl_nrows_le (N : String) (pa pb : Actor) (evs : List AcqEv)
    (st : AcqState) (h : (nrows N st.1).length ≤ 1) :
    (nrows N (evs.foldl (acqStep N pa pb) st).1).length ≤ 1 := by
  induction evs generalizing st with
  | nil => exact h
  | cons e t ih => exact ih _ (acqStep_nrows_le N pa pb st e h)

/-- `acqStep` equation: a sweep statement. -/
theorem acqStep_sweep (N : String) (pa pb : Actor) (st : AcqState) (b : Bool) :
    acqStep N pa pb st (.sweepEv b) =
      (deleteStale (actorOf pa pb b).now st.1, st.2) := rfl

/-- `acqStep` equation: the first actor's insert statement. -/
theorem acqStep_insA (N : String) (pa pb : Actor) (st : AcqState) :
    acqStep N pa pb st (.insEv false) =
      ((execInsert false true N pa.exp pa.key st.1).1,
       some (execInsert false true N pa.exp pa.key st.1).2.isNone, st.2.2) := rfl

/-- `acqStep` equation: the second actor's insert statement. -/
theorem acqStep_insB (N : String) (pa pb : Actor) (st : AcqState) :
    acqStep N pa pb st (.insEv true) =
      ((execInsert false true N pb.exp pb.key st.1).1, st.2.1,
       some (execInsert false true N pb.exp pb.key st.1).2.isNone) := rfl

/-- C5: if two actors run `Acquire` concurrently for the same name `N` on a
store with no row for `N`, the store enforcing uniqueness on the name
column, then in every interleaving of their statements exactly one actor's
insert succeeds and the other's fails (surfacing an error), and after every
prefix of the run at most one row named `N` exists.  The expirations are in
the future relative to both actors' clock readings. -/
theorem C5_mutual_exclusion (N : String) (pa pb : Actor) (s : Store)
    (h0 : nrows N s = [])
    (hab : ¬ pa.exp < pb.now) (hba : ¬ pb.exp < pa.now) :
    ∀ evs ∈ interleavings,
      (((acqRun N pa pb evs s).2.1 = some true ∧
        (acqRun N pa pb evs s).2.2 = some false) ∨
       ((acqRun N pa pb evs s).2.1 = some false ∧
        (acqRun N pa pb evs s).2.2 = some true)) ∧
      ∀ k : Nat, (nrows N (acqRun N pa pb (evs.take k) s).1).length ≤ 1 := by
  intro evs hevs
  refine ⟨?_, fun k =>
    foldl_nrows_le N pa pb (evs.take k) (s, none, none) (by simp [h0])⟩
  have hsw : ∀ now : Int, nrows N (deleteStale now s) = [] :=
    fun now => nrows_sweep_empty N now s h0
  have hsw2 : ∀ n1 n2 : Int, nrows N (deleteStale n2 (deleteStale n1 s)) = [] :=
    fun n1 n2 => nrows_sweep_empty N n2 _ (hsw n1)
  simp only [interleavings, List.mem_cons, List.not_mem_nil, or_false] at hevs
  rcases hevs with rfl | rfl | rfl | rfl | rfl | rfl
  · -- A sweeps, A inserts, B sweeps, B inserts
    have i1 := nrows_nil_insert N pa.exp pa.key (deleteStale pa.now s) (hsw pa.now)
    have n2 : nrows N (deleteStale pa.now s ++ [⟨N, pa.exp, pa.key⟩]) =
        [⟨N, pa.exp, pa.key⟩] := by
      rw [nrows_append_row N _ _ rfl, hsw pa.now]
      rfl
    have n3 : nrows N (deleteStale pb.now
        (deleteStale pa.now s ++ [⟨N, pa.exp, pa.key⟩])) =
        [⟨N, pa.exp, pa.key⟩] := by
      rw [nrows_deleteStale, n2]
      simp [hab]
    have i2 := nrows_nonnil_insert N pb.exp pb.key
      (deleteStale pb.now (deleteStale pa.now s ++ [⟨N, pa.exp, pa.key⟩]))
      (by rw [n3]; exact List.cons_ne_nil _ _)
    left
    constructor <;>
      simp [acqRun, List.foldl_cons, List.foldl_nil, acqStep_sweep,
        acqStep_insA, acqStep_insB, actorOf, i1, i2]
  · -- A sweeps, B sweeps, A inserts, B inserts
    have i1 := nrows_nil_insert N pa.exp pa.key
      (deleteStale pb.now (deleteStale pa.now s)) (hsw2 pa.now pb.now)
    have i2 := nrows_nonnil_insert N pb.exp pb.key
      (deleteStale pb.now (deleteStale pa.now s) ++ [⟨N, pa.exp, pa.key⟩])
      (by rw [nrows_append_row N _ _ rfl, hsw2 pa.now pb.now]; simp)
    left
    constructor <;>
      simp [acqRun, List.foldl_cons, List.foldl_nil, acqStep_sweep,
        acqStep_insA, acqStep_insB, actorOf, i1, i2]
  · -- A sweeps, B sweeps, B inserts, A inserts
    have i1 := nrows_nil_insert N pb.exp pb.key
      (deleteStale pb.now (deleteStale pa.now s)) (hsw2 pa.now pb.now)
    have i2 := nrows_nonnil_insert N pa.exp pa.key
      (deleteStale pb.now (deleteStale pa.now s) ++ [⟨N, pb.exp, pb.key⟩])
      (by rw [nrows_append_row N _ _ rfl, hsw2 pa.now pb.now]; simp)
    right
    constructor <;>
      simp [acqRun, List.foldl_cons, List.foldl_nil, acqStep_sweep,
        acqStep_insA, acqStep_insB, actorOf, i1, i2]
  · -- B sweeps, A sweeps, A inserts, B inserts
    have i1 := nrows_nil_insert N pa.exp pa.key
      (deleteStale pa.now (deleteStale pb.now s)) (hsw2 pb.now pa.now)
    have i2 := nrows_nonnil_insert N pb.exp pb.key
      (deleteStale pa.now (deleteStale pb.now s) ++ [⟨N, pa.exp, pa.key⟩])
      (by rw [nrows_append_row N _ _ rfl, hsw2 pb.now pa.now]; simp)
    left
    constructor <;>
      simp [acqRun, List.foldl_cons, List.foldl_nil, acqStep_sweep,
        acqStep_insA, acqStep_insB, actorOf, i1, i2]
  · -- B sweeps, A sweeps, B inserts, A inserts
    have i1 := nrows_nil_insert N pb.exp pb.key
      (deleteStale pa.now (deleteStale pb.now s)) (hsw2 pb.now pa.now)
    have i2 := nrows_nonnil_insert N pa.exp pa.key
      (deleteStale pa.now (deleteStale pb.now s) ++ [⟨N, pb.exp, pb.key⟩])
      (by rw [nrows_append_row N _ _ rfl, hsw2 pb.now pa.now]; simp)
    right
    constructor <;>
      simp [acqRun, List.foldl_cons, List.foldl_nil, acqStep_sweep,
        acqStep_insA, acqStep_insB, actorOf, i1, i2]
  · -- B sweeps, B inserts, A sweeps, A inserts
    have i1 := nrows_nil_insert N pb.exp pb.key (deleteStale pb.now s) (hsw pb.now)
    have n2 : nrows N (deleteStale pb.now s ++ [⟨N, pb.exp, pb.key⟩]) =
        [⟨N, pb.exp, pb.key⟩] := by
      rw [nrows_append_row N _ _ rfl, hsw pb.now]
      rfl
    have n3 : nrows N (deleteStale pa.now
        (deleteStale pb.now s ++ [⟨N, pb.exp, pb.key⟩])) =
        [⟨N, pb.exp, pb.key⟩] := by
      rw [nrows_deleteStale, n2]
      simp [hba]
    have i2 := nrows_nonnil_insert N pa.exp pa.key
      (deleteStale pa.now (deleteStale pb.now s ++ [⟨N, pb.exp, pb.key⟩]))
      (by rw [n3]; exact List.cons_ne_nil _ _)
    right
    constructor <;>
      simp [acqRun, List.foldl_cons, List.foldl_nil, acqStep_sweep,
        acqStep_insA, acqStep_insB, actorOf, i1, i2]

/-- C5 witnessed at a concrete input: empty initial store, both actors at
time 0 inserting expiration 10; in the first interleaving the first actor
wins, the second actor's insert fails, and after the whole run at most one
row named "n" exists. -/
theorem C5_witness :
    (((acqRun "n" ⟨0, 10, "ka"⟩ ⟨0, 10, "kb"⟩
        [AcqEv.sweepEv false, AcqEv.insEv false, AcqEv.sweepEv true,
         AcqEv.insEv true] []).2.1 = some true ∧
      (acqRun "n" ⟨0, 10, "ka"⟩ ⟨0, 10, "kb"⟩
        [AcqEv.sweepEv false, AcqEv.insEv false, AcqEv.sweepEv true,
         AcqEv.insEv true] []).2.2 = some false) ∨
     ((acqRun "n" ⟨0, 10, "ka"⟩ ⟨0, 10, "kb"⟩
        [AcqEv.sweepEv false, AcqEv.insEv false, AcqEv.sweepEv true,
         AcqEv.insEv true] []).2.1 = some false ∧
      (acqRun "n" ⟨0, 10, "ka"⟩ ⟨0, 10, "kb"⟩
        [AcqEv.sweepEv false, AcqEv.insEv false, AcqEv.sweepEv true,
         AcqEv.insEv true] []).2.2 = some true)) ∧
    (nrows "n" (acqRun "n" ⟨0, 10, "ka"⟩ ⟨0, 10, "kb"⟩
        ([AcqEv.sweepEv false, AcqEv.insEv false, AcqEv.sweepEv true,
          AcqEv.insEv true].take 4) []).1).length ≤ 1 :=
  ⟨(C5_mutual_exclusion "n" ⟨0, 10, "ka"⟩ ⟨0, 10, "kb"⟩ [] rfl (by decide)
      (by decide)
      [AcqEv.sweepEv false, AcqEv.insEv false, AcqEv.sweepEv true,
       AcqEv.insEv true] (by simp [interleavings])).1,
   (C5_mutual_exclusion "n" ⟨0, 10, "ka"⟩ ⟨0, 10, "kb"⟩ [] rfl (by decide)
      (by decide)
      [AcqEv.sweepEv false, AcqEv.insEv false, AcqEv.sweepEv true,
       AcqEv.insEv true] (by simp [interleavings])).2 4⟩
